import Mathlib

/-!
Shallow embedding of the ShieldAI detection pipeline, translated from
src/backend/src/detectors/engine.py, dictionary.py, llm_detector.py and
japanese_patterns.py.

Modelling conventions:
- Python strings are modelled as `List Char` (Python indexes by codepoint).
- The Python half-open slice `text[a:b]` is `(text.take b).drop a`, which
  agrees with Python's clamping behaviour for all natural `a`, `b`.
- Scores are `Rat`; the sources only use exact decimal constants.
- The Python field name `end` is a Lean keyword and is embedded as `stop`.
- External collaborators (the Presidio analyzer and the Ollama chat call)
  are inputs to the embedded functions; everything downstream of them is
  translated from the repository code.
-/

/-- Embeds the dataclass `Detection` of engine.py. -/
structure Detection where
  entity_type : String
  text : List Char
  start : Nat
  stop : Nat
  score : Rat
  method : String
deriving DecidableEq

/-- Embeds the dataclass `DetectionResult` of engine.py. The wall-clock
field `processing_time_ms` is observational only and is not modelled. -/
structure DetectionResult where
  original_text : List Char
  masked_text : List Char
  detections : List Detection
deriving DecidableEq

/-- Embeds the module-level table `ENTITY_LABELS` of engine.py. -/
def ENTITY_LABELS : List (String × String) :=
  [("PERSON", "個人名"),
   ("ORGANIZATION", "会社名"),
   ("EMAIL_ADDRESS", "メールアドレス"),
   ("PHONE_NUMBER", "電話番号"),
   ("JP_PHONE_NUMBER", "電話番号"),
   ("CREDIT_CARD", "クレジットカード"),
   ("JP_POSTAL_CODE", "郵便番号"),
   ("JP_ADDRESS", "住所"),
   ("JP_MY_NUMBER", "マイナンバー"),
   ("JP_CURRENCY", "金額"),
   ("JP_COMPANY", "会社名"),
   ("JP_PERSON_NAME", "個人名"),
   ("API_KEY", "APIキー"),
   ("IP_ADDRESS", "IPアドレス"),
   ("URL", "URL"),
   ("PROJECT_NAME", "プロジェクト名"),
   ("CONFIDENTIAL", "機密情報"),
   ("DICT_COMPANIES", "会社名"),
   ("DICT_PROJECTS", "プロジェクト名"),
   ("DICT_PERSONS", "個人名"),
   ("DICT_CUSTOM", "機密情報")]

/-- Embeds `ENTITY_LABELS.get(entity_type, "機密情報")` as used in
`_mask_text` and `get_entity_label`. -/
def entityLabel (entity_type : String) : String :=
  (ENTITY_LABELS.lookup entity_type).getD "機密情報"

/-- Embeds Python's `s.startswith(p)` on codepoint lists. -/
def strStartsWith (s p : String) : Bool :=
  p.data.isPrefixOf s.data

/-- Embeds the `method_priority` computation of `get_priority` inside
`_remove_overlapping` in engine.py. -/
def methodPriority (d : Detection) : Nat :=
  if d.method = "dictionary" then 0
  else if strStartsWith d.entity_type "JP_" ∨
      d.entity_type ∈ (["EMAIL_ADDRESS", "CREDIT_CARD", "API_KEY"] : List String) then 1
  else if d.entity_type ∈ (["PERSON", "ORGANIZATION"] : List String) then 3
  else 2

/-- Embeds `get_priority` of engine.py: the Python sort key
`(method_priority, -(d.end - d.start), -d.score)`. -/
def getPriority (d : Detection) : Nat × Int × Rat :=
  (methodPriority d, -((d.stop : Int) - (d.start : Int)), -d.score)

/-- Lexicographic less-or-equal on priority keys: Python compares key
tuples lexicographically. -/
def prioLe (a b : Detection) : Bool :=
  decide ((getPriority a).1 < (getPriority b).1) ||
    (decide ((getPriority a).1 = (getPriority b).1) &&
      (decide ((getPriority a).2.1 < (getPriority b).2.1) ||
        (decide ((getPriority a).2.1 = (getPriority b).2.1) &&
          decide ((getPriority a).2.2 ≤ (getPriority b).2.2))))

/-- Stable insertion into a sorted list: an earlier list element never
moves past an equal-key later one, matching Python's stable `sorted`. -/
def insertLe {α : Type} (le : α → α → Bool) (x : α) : List α → List α
  | [] => [x]
  | y :: ys => if le x y then x :: y :: ys else y :: insertLe le x ys

/-- Embeds Python's stable `sorted` with a boolean key comparison. -/
def sortedBy {α : Type} (le : α → α → Bool) : List α → List α
  | [] => []
  | x :: xs => insertLe le x (sortedBy le xs)

/-- The acceptance test of `_remove_overlapping`: a candidate is added only
when for every already accepted candidate `a`, `det.end <= a.start` or
`det.start >= a.end` (no overlap). -/
def acceptOk (det : Detection) (acc : List Detection) : Bool :=
  acc.all fun a => decide (det.stop ≤ a.start) || decide (det.start ≥ a.stop)

/-- Embeds the greedy acceptance loop of `_remove_overlapping`. -/
def removeOverlappingAux : List Detection → List Detection → List Detection
  | [], acc => acc
  | det :: rest, acc =>
    if acceptOk det acc then removeOverlappingAux rest (acc ++ [det])
    else removeOverlappingAux rest acc

/-- Embeds `ShieldAIEngine._remove_overlapping` of engine.py. -/
def removeOverlapping (detections : List Detection) : List Detection :=
  if detections = [] then []
  else removeOverlappingAux (sortedBy prioLe detections) []

/-- Disjointness of the half-open spans of two detections. -/
def SpansDisjoint (a b : Detection) : Prop :=
  a.stop ≤ b.start ∨ b.stop ≤ a.start

/-- One replacement step of `_mask_text`:
`result[:d.start] + "[" + label + "]" + result[d.end:]`. -/
def maskOne (result : List Char) (d : Detection) : List Char :=
  result.take d.start ++ ('[' :: (entityLabel d.entity_type).data ++ [']']) ++
    result.drop d.stop

/-- Embeds `ShieldAIEngine._mask_text` of engine.py: filter overlaps, sort
by start descending (stable), then splice right-to-left. -/
def maskText (text : List Char) (detections : List Detection) : List Char :=
  if detections = [] then text
  else
    (sortedBy (fun a b => decide (b.start ≤ a.start)) (removeOverlapping detections)).foldl
      maskOne text

/-- Embeds the dataclass `DictionaryEntry` of dictionary.py. -/
structure DictionaryEntry where
  value : String
  label : String
  category : String
deriving DecidableEq

/-- Embeds the dataclass `DictionaryDetection` of dictionary.py. -/
structure DictionaryDetection where
  entity_type : String
  text : List Char
  start : Nat
  stop : Nat
  score : Rat
  label : String
deriving DecidableEq

/-- Embeds `re.finditer(re.escape(value), text)` for a literal pattern:
scan left to right, report each match position, and resume scanning at the
end of a match (one past it for an empty pattern). The argument `i` is the
index of the head of the remaining text, and `skip` counts characters of a
reported match still to be passed over. -/
def findAllAux (pat : List Char) : List Char → Nat → Nat → List Nat
  | [], 0, i => if pat = [] then [i] else []
  | [], _ + 1, _ => []
  | c :: rest, 0, i =>
    if pat.isPrefixOf (c :: rest) then i :: findAllAux pat rest (pat.length - 1) (i + 1)
    else findAllAux pat rest 0 (i + 1)
  | _ :: rest, skip + 1, i => findAllAux pat rest skip (i + 1)

/-- All (non-overlapping, leftmost-first) occurrences of a literal pattern,
as `re.finditer` yields them. -/
def findAll (pat text : List Char) : List Nat :=
  findAllAux pat text 0 0

/-- The detections one dictionary entry contributes in
`DictionaryDetector.detect`: one per occurrence of `entry.value`. -/
def dictEntryDetections (text : List Char) (e : DictionaryEntry) : List DictionaryDetection :=
  (findAll e.value.data text).map fun s =>
    { entity_type := "DICT_" ++ e.category.toUpper
      text := e.value.data
      start := s
      stop := s + e.value.data.length
      score := mkRat 95 100
      label := e.label }

/-- Embeds `DictionaryDetector.detect` of dictionary.py. -/
def dictDetect (entries : List DictionaryEntry) (text : List Char) : List DictionaryDetection :=
  entries.flatMap (dictEntryDetections text)

/-- Embeds the dataclass `LLMDetection` of llm_detector.py. -/
structure LLMDetection where
  entity_type : String
  text : List Char
  start : Nat
  stop : Nat
  score : Rat
deriving DecidableEq

/-- Embeds the `mapping` table of `LLMDetector._map_type`. -/
def LLM_TYPE_MAP : List (String × String) :=
  [("個人名", "PERSON"),
   ("会社名", "ORGANIZATION"),
   ("企業名", "ORGANIZATION"),
   ("プロジェクト名", "PROJECT_NAME"),
   ("機密情報", "CONFIDENTIAL")]

/-- Embeds `LLMDetector._map_type` of llm_detector.py. -/
def mapType (japanese_type : String) : String :=
  (LLM_TYPE_MAP.lookup japanese_type).getD "CONFIDENTIAL"

/-- Embeds Python's `text.find(value)`: index of the first occurrence, with
`i` the index of the head of the remaining text. -/
def findSubAux (pat : List Char) : List Char → Nat → Option Nat
  | [], i => if pat = [] then some i else none
  | c :: rest, i =>
    if pat.isPrefixOf (c :: rest) then some i else findSubAux pat rest (i + 1)

/-- Embeds `text.find(value)` (`none` for Python's `-1`). -/
def findSub (text pat : List Char) : Option Nat :=
  findSubAux pat text 0

/-- Embeds `LLMDetector.detect` of llm_detector.py. `available` is the
result of `is_available()`; `response` is the parsed list of
(type, value) pairs from the chat call, or `none` when the call or the
JSON parsing raised (the `except` branch). -/
def llmDetect (available : Bool) (response : Option (List (String × String)))
    (text : List Char) : List LLMDetection :=
  if !available then []
  else
    match response with
    | none => []
    | some items =>
      items.filterMap fun item =>
        if item.2 = "" then none
        else
          match findSub text item.2.data with
          | none => none
          | some s =>
            some { entity_type := mapType item.1
                   text := item.2.data
                   start := s
                   stop := s + item.2.data.length
                   score := mkRat 75 100 }

/-- Embeds Presidio's `RecognizerResult` as consumed by engine.py and
produced by `PatternRecognizer.analyze`. -/
structure RecognizerResult where
  entity_type : String
  start : Nat
  stop : Nat
  score : Rat
deriving DecidableEq

/-- Embeds `JapaneseHonorificNameRecognizer.DENY_LIST` of
japanese_patterns.py. -/
def DENY_LIST : List String :=
  ["お客様", "皆様", "各位", "担当者様", "御担当者様", "ご担当者様",
   "関係者様", "責任者様", "代表者様", "管理者様", "窓口様",
   "御中", "貴社様", "弊社", "当社", "御社",
   "皆さん", "皆さま", "みなさま", "あなた様",
   "お客さん", "お客さま", "先生", "先輩", "後輩",
   "部長", "課長", "係長", "社長", "会長", "専務", "常務", "取締役"]

/-- Embeds the overridden `JapaneseHonorificNameRecognizer.analyze`:
`results` are the raw matches from `super().analyze` (external pattern
capability); each is kept only when `text[result.start:result.end]` is not
in the deny list. -/
def honorificAnalyze (results : List RecognizerResult) (text : List Char) :
    List RecognizerResult :=
  results.filter fun r =>
    !(DENY_LIST.contains (String.mk ((text.take r.stop).drop r.start)))

/-- Embeds the engine state set up by `ShieldAIEngine.__init__` that the
`detect` control flow reads: `has_llm_detector` models
`self.llm_detector is not None`. -/
structure ShieldAIEngine where
  use_llm : Bool
  min_text_length_for_llm : Nat
  has_llm_detector : Bool
deriving DecidableEq

/-- Embeds `ShieldAIEngine.__init__`: the LLM detector is constructed
exactly when `use_llm` is set. -/
def mkEngine (use_llm : Bool) (min_text_length_for_llm : Nat) : ShieldAIEngine :=
  { use_llm := use_llm
    min_text_length_for_llm := min_text_length_for_llm
    has_llm_detector := use_llm }

/-- The stage-3 guard of `ShieldAIEngine.detect`: `self.use_llm and
self.llm_detector and len(detections) == 0 and
len(text) >= self.min_text_length_for_llm`. -/
def contextInvoked (engine : ShieldAIEngine) (text : List Char)
    (detections : List Detection) : Bool :=
  engine.use_llm && engine.has_llm_detector && decide (detections.length = 0) &&
    decide (engine.min_text_length_for_llm ≤ text.length)

/-- Stage-1 wrapping in `detect`: a Presidio result becomes a `Detection`
with `text=text[result.start:result.end]` and `method="regex"`. -/
def presidioToDetection (text : List Char) (r : RecognizerResult) : Detection :=
  { entity_type := r.entity_type
    text := (text.take r.stop).drop r.start
    start := r.start
    stop := r.stop
    score := r.score
    method := "regex" }

/-- Stage-2 wrapping in `detect`: `method="dictionary"`; the entry's
display label is not carried over. -/
def dictToDetection (r : DictionaryDetection) : Detection :=
  { entity_type := r.entity_type
    text := r.text
    start := r.start
    stop := r.stop
    score := r.score
    method := "dictionary" }

/-- Stage-3 wrapping in `detect`: `method="llm"`. -/
def llmToDetection (r : LLMDetection) : Detection :=
  { entity_type := r.entity_type
    text := r.text
    start := r.start
    stop := r.stop
    score := r.score
    method := "llm" }

/-- The candidates collected by stages 1 and 2 of `detect`, in order. -/
def stage12 (presidioResults : List RecognizerResult) (entries : List DictionaryEntry)
    (text : List Char) : List Detection :=
  presidioResults.map (presidioToDetection text) ++
    (dictDetect entries text).map dictToDetection

/-- Embeds `ShieldAIEngine.detect` of engine.py. The external Presidio
analyzer output and the external Ollama call outcome are inputs; the
dictionary and LLM detectors are the embedded ones above. -/
def detect (engine : ShieldAIEngine) (presidioResults : List RecognizerResult)
    (entries : List DictionaryEntry) (llmAvailable : Bool)
    (llmResponse : Option (List (String × String))) (text : List Char) :
    DetectionResult :=
  let priorDetections := stage12 presidioResults entries text
  let detections :=
    if contextInvoked engine text priorDetections then
      priorDetections ++ (llmDetect llmAvailable llmResponse text).map llmToDetection
    else priorDetections
  { original_text := text
    masked_text := maskText text detections
    detections := detections }

/-- The spec's description of the masked output, for comparison with the
embedded `_mask_text`: the segments of the original text between accepted
spans are kept unchanged and each accepted span `[start, end)` is replaced
by the bracketed label of its entity type. The candidate list is taken in
ascending start order and `pos` is the index where the unprocessed
remainder of the text begins. -/
def specMaskOutput (text : List Char) : List Detection → Nat → List Char
  | [], pos => text.drop pos
  | d :: rest, pos =>
    (text.take d.start).drop pos ++ ('[' :: (entityLabel d.entity_type).data ++ [']']) ++
      specMaskOutput text rest d.stop

lemma removeOverlappingAux_pairwise (ds : List Detection) :
    ∀ acc : List Detection, acc.Pairwise SpansDisjoint →
      (removeOverlappingAux ds acc).Pairwise SpansDisjoint := by
  induction ds with
  | nil => intro acc h; simpa [removeOverlappingAux] using h
  | cons det rest ih =>
    intro acc h
    by_cases hc : acceptOk det acc = true
    · rw [removeOverlappingAux, if_pos hc]
      apply ih
      rw [List.pairwise_append]
      refine ⟨h, List.pairwise_singleton _ _, ?_⟩
      intro a ha b hb
      rw [List.mem_singleton] at hb
      subst hb
      have := List.all_eq_true.mp hc a ha
      rcases Bool.or_eq_true_iff.mp this with h1 | h1
      · exact Or.inr (of_decide_eq_true h1)
      · exact Or.inl (of_decide_eq_true h1)
    · rw [removeOverlappingAux, if_neg hc]
      exact ih acc h

/-- C1: the output of overlap resolution (`_remove_overlapping`) is
pairwise disjoint: for any two distinct accepted candidates `a` and `b`,
either `a.end ≤ b.start` or `b.end ≤ a.start` (half-open intervals). -/
theorem resolve_output_pairwise_disjoint (detections : List Detection) :
    (removeOverlapping detections).Pairwise SpansDisjoint := by
  unfold removeOverlapping
  by_cases h : detections = []
  · simp [h]
  · rw [if_neg h]
    exact removeOverlappingAux_pairwise _ [] List.Pairwise.nil

/-- C2 counterexample: on two overlapping Presidio results, `detect`
returns both collected candidates in `detections` even though overlap
resolution retains only one of them. -/
theorem detect_detections_unfiltered_cex :
    (detect (mkEngine false 50) [⟨"PERSON", 0, 4, mkRat 9 10⟩, ⟨"PERSON", 2, 6, mkRat 8 10⟩]
        [] false none "abcdef".data).detections.length = 2 ∧
    (removeOverlapping
        (detect (mkEngine false 50) [⟨"PERSON", 0, 4, mkRat 9 10⟩, ⟨"PERSON", 2, 6, mkRat 8 10⟩]
          [] false none "abcdef".data).detections).length = 1 := by
  decide

/-- C2 (amended): the `detections` list of the returned `DetectionResult`
is the full collected candidate list of all stages in original detection
order, including candidates later discarded by overlap resolution; the
masked text is computed from that same list (resolution happens inside
masking). -/
theorem detect_detections_all_collected (engine : ShieldAIEngine)
    (p : List RecognizerResult) (entries : List DictionaryEntry)
    (la : Bool) (lr : Option (List (String × String))) (text : List Char) :
    (detect engine p entries la lr text).detections =
      stage12 p entries text ++
        (if contextInvoked engine text (stage12 p entries text) then
          (llmDetect la lr text).map llmToDetection
        else []) ∧
    (detect engine p entries la lr text).masked_text =
      maskText text (detect engine p entries la lr text).detections := by
  unfold detect
  by_cases h : contextInvoked engine text (stage12 p entries text) = true <;> simp [h]

/-- C6: on the invalid span `start=5`, `end=2` the engine does not skip
the candidate; `_mask_text` splices with the inverted bounds and produces
output in which the characters `CDE` of the original text are duplicated
around the label, instead of leaving the text intact. -/
theorem invalid_span_corrupts_mask :
    maskText "ABCDEFG".data [⟨"FOO", [], 5, 2, mkRat 5 10, "regex"⟩] =
      "ABCDE[機密情報]CDEFG".data ∧
    maskText "ABCDEFG".data [⟨"FOO", [], 5, 2, mkRat 5 10, "regex"⟩] ≠ "ABCDEFG".data := by
  decide

/-- C7: for an engine built by the constructor, the context (LLM) stage
guard holds iff the engine is configured to use the LLM, the pattern and
dictionary stages produced zero candidates, and the text length meets the
minimum threshold; in particular, when a prior candidate exists, `detect`
returns exactly the stage-1/stage-2 candidates and no LLM-derived ones. -/
theorem context_gating_iff :
    (∀ (use_llm : Bool) (min_len : Nat) (text : List Char) (prior : List Detection),
      contextInvoked (mkEngine use_llm min_len) text prior = true ↔
        use_llm = true ∧ prior = [] ∧ min_len ≤ text.length) ∧
    (∀ (use_llm : Bool) (min_len : Nat) (p : List RecognizerResult)
        (entries : List DictionaryEntry) (la : Bool)
        (lr : Option (List (String × String))) (text : List Char),
      stage12 p entries text ≠ [] →
        (detect (mkEngine use_llm min_len) p entries la lr text).detections =
          stage12 p entries text) := by
  constructor
  · intro use_llm min_len text prior
    simp [contextInvoked, mkEngine, List.length_eq_zero, Bool.and_eq_true,
      and_assoc]
  · intro use_llm min_len p entries la lr text h
    have hlen : (stage12 p entries text).length ≠ 0 := by
      simpa [List.length_eq_zero] using h
    unfold detect
    simp [contextInvoked, hlen]

/-- Witness for C7: with one prior pattern candidate, an LLM-enabled
engine with satisfied length threshold still returns only the prior
candidates. -/
theorem context_gating_iff_witness :
    (detect (mkEngine true 1) [⟨"PERSON", 0, 2, mkRat 5 10⟩] [] true
        (some [("個人名", "B")]) "AAAB".data).detections =
      stage12 [⟨"PERSON", 0, 2, mkRat 5 10⟩] [] "AAAB".data :=
  context_gating_iff.2 true 1 [⟨"PERSON", 0, 2, mkRat 5 10⟩] [] true
    (some [("個人名", "B")]) "AAAB".data (by decide)

/-- C9: every result returned by the honorific recognizer's `analyze`
override has matched text (the slice `text[start:end]`) that is not an
entry of the fixed deny list, so deny-listed phrases never reach the
pattern-stage output. -/
theorem honorific_denylist_filtered (results : List RecognizerResult)
    (text : List Char) (r : RecognizerResult)
    (h : r ∈ honorificAnalyze results text) :
    String.mk ((text.take r.stop).drop r.start) ∉ DENY_LIST := by
  unfold honorificAnalyze at h
  have h2 := (List.mem_filter.mp h).2
  simpa using h2

/-- Witness for C9: the deny-list filter passes the honorific name 田中様,
which is indeed not a deny-listed phrase. -/
theorem honorific_denylist_filtered_witness :
    String.mk (("田中様".data.take 3).drop 0) ∉ DENY_LIST :=
  honorific_denylist_filtered [⟨"JP_PERSON_NAME", 0, 3, mkRat 6 10⟩] "田中様".data
    ⟨"JP_PERSON_NAME", 0, 3, mkRat 6 10⟩ (by decide)

lemma prioLe_of_rank_lt (a b : Detection)
    (h : methodPriority a < methodPriority b) : prioLe a b = true := by
  simp [prioLe, getPriority, h]

lemma prioLe_eq_false_of_rank_lt (a b : Detection)
    (h : methodPriority b < methodPriority a) : prioLe a b = false := by
  have h1 : ¬ methodPriority a < methodPriority b := by omega
  have h2 : ¬ methodPriority a = methodPriority b := by omega
  simp [prioLe, getPriority, h1, h2]

lemma prioLe_of_rank_eq_longer (a b : Detection)
    (hr : methodPriority a = methodPriority b)
    (hl : (b.stop : Int) - b.start < (a.stop : Int) - a.start) :
    prioLe a b = true := by
  have h1 : -((a.stop : Int) - a.start) < -((b.stop : Int) - b.start) := by omega
  simp only [prioLe, getPriority, hr]
  simp
  exact Or.inl (by omega)

lemma prioLe_eq_false_of_rank_eq_longer (a b : Detection)
    (hr : methodPriority a = methodPriority b)
    (hl : (b.stop : Int) - b.start < (a.stop : Int) - a.start) :
    prioLe b a = false := by
  have h1 : ¬ -((b.stop : Int) - b.start) < -((a.stop : Int) - a.start) := by omega
  have h2 : ¬ -((b.stop : Int) - b.start) = -((a.stop : Int) - a.start) := by omega
  have h3 : ¬ methodPriority b < methodPriority a := by omega
  simp only [prioLe, getPriority, hr]
  simp
  exact ⟨by omega, fun hEq => absurd hEq (by omega)⟩

lemma removeOverlapping_pair (a b : Detection)
    (hab : prioLe a b = true) (hba : prioLe b a = false)
    (h1 : ¬ b.stop ≤ a.start) (h2 : ¬ b.start ≥ a.stop) :
    removeOverlapping [a, b] = [a] ∧ removeOverlapping [b, a] = [a] := by
  have hsort1 : sortedBy prioLe [a, b] = [a, b] := by
    simp [sortedBy, insertLe, hab]
  have hsort2 : sortedBy prioLe [b, a] = [a, b] := by
    simp [sortedBy, insertLe, hba]
  have hacc1 : acceptOk a [] = true := rfl
  have hacc2 : acceptOk b [a] = false := by
    simp [acceptOk, h1, h2]
  have hrun : removeOverlappingAux [a, b] [] = [a] := by
    rw [removeOverlappingAux, if_pos hacc1, removeOverlappingAux, List.nil_append,
      if_neg (by simp [hacc2]), removeOverlappingAux]
  constructor
  · rw [removeOverlapping, if_neg (by simp), hsort1, hrun]
  · rw [removeOverlapping, if_neg (by simp), hsort2, hrun]

/-- C3: a dictionary-sourced candidate fully overlapping a generic-person
candidate wins overlap resolution, for any scores of the two: both
orderings of the input resolve to just the dictionary candidate. -/
theorem dictionary_beats_generic_person (d p : Detection)
    (hd : d.method = "dictionary") (hp : p.entity_type = "PERSON")
    (hpm : p.method ≠ "dictionary")
    (h1 : d.start ≤ p.start) (h2 : p.stop ≤ d.stop) (h3 : p.start < p.stop) :
    removeOverlapping [d, p] = [d] ∧ removeOverlapping [p, d] = [d] := by
  have hdprio : methodPriority d = 0 := by simp [methodPriority, hd]
  have hpprio : methodPriority p = 3 := by
    rw [methodPriority, if_neg hpm, hp]
    decide
  refine removeOverlapping_pair d p
    (prioLe_of_rank_lt d p (by omega)) (prioLe_eq_false_of_rank_lt p d (by omega))
    (by omega) (by omega)

/-- Witness for C3: a low-scored dictionary candidate containing a
high-scored generic-person candidate is the one kept, in either input
order. -/
theorem dictionary_beats_generic_person_witness :
    removeOverlapping
        [⟨"DICT_PERSONS", "田中".data, 0, 5, mkRat 1 10, "dictionary"⟩,
         ⟨"PERSON", "x".data, 1, 3, mkRat 99 100, "regex"⟩] =
      [⟨"DICT_PERSONS", "田中".data, 0, 5, mkRat 1 10, "dictionary"⟩] ∧
    removeOverlapping
        [⟨"PERSON", "x".data, 1, 3, mkRat 99 100, "regex"⟩,
         ⟨"DICT_PERSONS", "田中".data, 0, 5, mkRat 1 10, "dictionary"⟩] =
      [⟨"DICT_PERSONS", "田中".data, 0, 5, mkRat 1 10, "dictionary"⟩] :=
  dictionary_beats_generic_person
    ⟨"DICT_PERSONS", "田中".data, 0, 5, mkRat 1 10, "dictionary"⟩
    ⟨"PERSON", "x".data, 1, 3, mkRat 99 100, "regex"⟩
    rfl rfl (by decide) (by decide) (by decide) (by decide)

/-- C4: of two candidates of equal method rank where one interval strictly
contains the other, overlap resolution keeps the longer one and discards
the contained one, regardless of scores, in either input order. -/
theorem containment_tiebreak_keeps_longer (a b : Detection)
    (hr : methodPriority a = methodPriority b)
    (h1 : a.start ≤ b.start) (h2 : b.stop ≤ a.stop)
    (hstrict : a.start < b.start ∨ b.stop < a.stop)
    (hb : b.start < b.stop) :
    removeOverlapping [a, b] = [a] ∧ removeOverlapping [b, a] = [a] := by
  have hl : (b.stop : Int) - b.start < (a.stop : Int) - a.start := by omega
  refine removeOverlapping_pair a b
    (prioLe_of_rank_eq_longer a b hr hl)
    (prioLe_eq_false_of_rank_eq_longer a b hr hl)
    (by omega) (by omega)

/-- Witness for C4: with equal method rank, the longer low-scored span
beats the contained high-scored one, in either input order. -/
theorem containment_tiebreak_keeps_longer_witness :
    removeOverlapping
        [⟨"BAR", "ab".data, 0, 5, mkRat 1 10, "regex"⟩,
         ⟨"FOO", "b".data, 1, 3, mkRat 99 100, "regex"⟩] =
      [⟨"BAR", "ab".data, 0, 5, mkRat 1 10, "regex"⟩] ∧
    removeOverlapping
        [⟨"FOO", "b".data, 1, 3, mkRat 99 100, "regex"⟩,
         ⟨"BAR", "ab".data, 0, 5, mkRat 1 10, "regex"⟩] =
      [⟨"BAR", "ab".data, 0, 5, mkRat 1 10, "regex"⟩] :=
  containment_tiebreak_keeps_longer
    ⟨"BAR", "ab".data, 0, 5, mkRat 1 10, "regex"⟩
    ⟨"FOO", "b".data, 1, 3, mkRat 99 100, "regex"⟩
    (by decide) (by decide) (by decide) (by decide) (by decide)

lemma insertLe_perm {α : Type} (le : α → α → Bool) (x : α) (l : List α) :
    (insertLe le x l).Perm (x :: l) := by
  induction l with
  | nil => exact List.Perm.refl _
  | cons y ys ih =>
    rw [insertLe]
    by_cases h : le x y = true
    · rw [if_pos h]
    · rw [if_neg h]
      exact (List.Perm.cons y ih).trans (List.Perm.swap x y ys)

lemma sortedBy_perm {α : Type} (le : α → α → Bool) (l : List α) :
    (sortedBy le l).Perm l := by
  induction l with
  | nil => exact List.Perm.refl _
  | cons x xs ih =>
    rw [sortedBy]
    exact (insertLe_perm le x (sortedBy le xs)).trans (List.Perm.cons x ih)

lemma insertLe_desc_pairwise (x : Detection) (l : List Detection)
    (h : l.Pairwise (fun a b => b.start ≤ a.start)) :
    (insertLe (fun a b => decide (b.start ≤ a.start)) x l).Pairwise
      (fun a b => b.start ≤ a.start) := by
  induction l with
  | nil => exact List.pairwise_singleton _ _
  | cons y ys ih =>
    rw [insertLe]
    obtain ⟨hy, hys⟩ := List.pairwise_cons.mp h
    by_cases hxy : decide (y.start ≤ x.start) = true
    · rw [if_pos hxy]
      have hxy2 : y.start ≤ x.start := of_decide_eq_true hxy
      refine List.Pairwise.cons ?_ h
      intro b hb
      rcases List.mem_cons.mp hb with rfl | hb2
      · exact hxy2
      · exact le_trans (hy b hb2) hxy2
    · rw [if_neg hxy]
      have hyx : x.start ≤ y.start := by
        have h2 : ¬ y.start ≤ x.start := by simpa using hxy
        omega
      refine List.Pairwise.cons ?_ (ih hys)
      intro b hb
      have hmem := (insertLe_perm _ x ys).mem_iff.mp hb
      rcases List.mem_cons.mp hmem with rfl | hb2
      · exact hyx
      · exact hy b hb2

lemma sortedBy_desc_pairwise (l : List Detection) :
    (sortedBy (fun a b => decide (b.start ≤ a.start)) l).Pairwise
      (fun a b => b.start ≤ a.start) := by
  induction l with
  | nil => exact List.Pairwise.nil
  | cons x xs ih =>
    rw [sortedBy]
    exact insertLe_desc_pairwise x _ ih

lemma removeOverlappingAux_all_accepted :
    ∀ (l acc : List Detection), l.Pairwise SpansDisjoint →
      (∀ det ∈ l, ∀ a ∈ acc, SpansDisjoint det a) →
      removeOverlappingAux l acc = acc ++ l := by
  intro l
  induction l with
  | nil =>
    intro acc _ _
    simp [removeOverlappingAux]
  | cons det rest ih =>
    intro acc hpair hacc
    obtain ⟨hdet, hrest⟩ := List.pairwise_cons.mp hpair
    have hok : acceptOk det acc = true := by
      simp only [acceptOk, List.all_eq_true, Bool.or_eq_true, decide_eq_true_eq]
      intro a ha
      exact hacc det (List.mem_cons_self _ _) a ha
    rw [removeOverlappingAux, if_pos hok,
      ih (acc ++ [det]) hrest ?_]
    · simp
    · intro det' hdet' a ha
      rcases List.mem_append.mp ha with ha2 | ha2
      · exact hacc det' (List.mem_cons_of_mem _ hdet') a ha2
      · rw [List.mem_singleton] at ha2
        subst ha2
        rcases hdet det' hdet' with h | h
        · exact Or.inr h
        · exact Or.inl h

lemma foldr_maskOne_spec (text : List Char) :
    ∀ (ds : List Detection) (pos : Nat),
      ds.Pairwise (fun a b => a.stop ≤ b.start) →
      (∀ d ∈ ds, pos ≤ d.start) →
      (∀ d ∈ ds, d.start ≤ d.stop) →
      (∀ d ∈ ds, d.stop ≤ text.length) →
      List.foldr (fun d r => maskOne r d) text ds =
        text.take pos ++ specMaskOutput text ds pos := by
  intro ds
  induction ds with
  | nil =>
    intro pos _ _ _ _
    simp [specMaskOutput]
  | cons d rest ih =>
    intro pos hchain hpos hval hbound
    obtain ⟨hd, hrest⟩ := List.pairwise_cons.mp hchain
    have hvald : d.start ≤ d.stop := hval d (List.mem_cons_self _ _)
    have hboundd : d.stop ≤ text.length := hbound d (List.mem_cons_self _ _)
    have hposd : pos ≤ d.start := hpos d (List.mem_cons_self _ _)
    have hIH := ih d.stop hrest
      (fun d' hd' => hd d' hd')
      (fun d' hd' => hval d' (List.mem_cons_of_mem _ hd'))
      (fun d' hd' => hbound d' (List.mem_cons_of_mem _ hd'))
    rw [List.foldr_cons, hIH, maskOne]
    have hlen : (text.take d.stop).length = d.stop := by
      simp [List.length_take]
      omega
    rw [List.take_append_of_le_length (by omega),
      List.drop_append_of_le_length (by omega),
      List.take_take, Nat.min_eq_left hvald,
      List.drop_eq_nil_of_le (by omega), specMaskOutput]
    have hpre : text.take pos ++ (text.take d.start).drop pos = text.take d.start := by
      have h1 : (text.take d.start).take pos = text.take pos := by
        rw [List.take_take, Nat.min_eq_left hposd]
      rw [← h1, List.take_append_drop]
    simp only [List.nil_append]
    conv_lhs => rw [← hpre]
    simp [List.append_assoc]

lemma maskText_spec_eq (text : List Char) (ds : List Detection)
    (hchain : ds.Pairwise (fun a b => a.stop ≤ b.start))
    (hval : ∀ d ∈ ds, d.start < d.stop)
    (hbound : ∀ d ∈ ds, d.stop ≤ text.length) :
    maskText text ds = specMaskOutput text ds 0 := by
  by_cases hnil : ds = []
  · subst hnil
    simp [maskText, specMaskOutput]
  · have hdisj : ds.Pairwise SpansDisjoint := hchain.imp (fun h => Or.inl h)
    have hsymm2 : ∀ {a b : Detection}, SpansDisjoint a b → SpansDisjoint b a :=
      fun h => h.symm
    have hPperm : (sortedBy prioLe ds).Perm ds := sortedBy_perm prioLe ds
    have hPdisj : (sortedBy prioLe ds).Pairwise SpansDisjoint :=
      (hPperm.pairwise_iff (fun hab => hsymm2 hab)).mpr hdisj
    have hremove : removeOverlapping ds = sortedBy prioLe ds := by
      rw [removeOverlapping, if_neg hnil,
        removeOverlappingAux_all_accepted _ [] hPdisj (by intro det _ a ha; simp at ha),
        List.nil_append]
    have hFperm :
        (sortedBy (fun a b => decide (b.start ≤ a.start)) (sortedBy prioLe ds)).Perm ds :=
      (sortedBy_perm _ _).trans hPperm
    have hFweak :
        (sortedBy (fun a b => decide (b.start ≤ a.start)) (sortedBy prioLe ds)).Pairwise
          (fun a b => b.start ≤ a.start) := sortedBy_desc_pairwise _
    have hlt : ds.Pairwise (fun a b => a.start < b.start) :=
      List.Pairwise.imp_of_mem (fun ha _ h => lt_of_lt_of_le (hval _ ha) h) hchain
    have hne : ds.Pairwise (fun a b => a.start ≠ b.start) :=
      hlt.imp (fun h => Nat.ne_of_lt h)
    have hFne :
        (sortedBy (fun a b => decide (b.start ≤ a.start)) (sortedBy prioLe ds)).Pairwise
          (fun a b => a.start ≠ b.start) :=
      (hFperm.pairwise_iff (fun hab => Ne.symm hab)).mpr hne
    have hFstrict :
        (sortedBy (fun a b => decide (b.start ≤ a.start)) (sortedBy prioLe ds)).Pairwise
          (fun a b => b.start < a.start) :=
      (hFweak.and hFne).imp (fun h => lt_of_le_of_ne h.1 (Ne.symm h.2))
    have hRev : (ds.reverse).Pairwise (fun a b => b.start < a.start) :=
      List.pairwise_reverse.mpr hlt
    haveI : IsAntisymm Detection (fun a b => b.start < a.start) :=
      ⟨fun a b h1 h2 => absurd h1 (by omega)⟩
    have hFeq :
        sortedBy (fun a b => decide (b.start ≤ a.start)) (sortedBy prioLe ds) =
          ds.reverse :=
      List.eq_of_perm_of_sorted (hFperm.trans (ds.reverse_perm).symm) hFstrict hRev
    rw [maskText, if_neg hnil, hremove, hFeq, List.foldl_reverse]
    have hmain := foldr_maskOne_spec text ds 0 hchain (fun d _ => Nat.zero_le _)
      (fun d hd => Nat.le_of_lt (hval d hd)) hbound
    simpa using hmain

/-- C5: masking behaviour of `_mask_text`. With zero candidates the
masked text is the original text unchanged. For every text and every
accepted overlap-free candidate set (listed in ascending start order,
spans valid and in bounds), the masked text equals the original text with
each accepted span `[start, end)` replaced by the bracketed label of its
entity type and all surrounding segments untouched — the observable
effect of the descending-start splicing. Labels are looked up in
`ENTITY_LABELS`; types absent from the table fall back to the generic
confidential label 機密情報; the single accepted span (1,6) on `A12345B`
gives `A[` + label + `]B`, the spec's `A[ID]B` instance with label `ID`. -/
theorem mask_splice_and_default :
    (∀ text : List Char, maskText text [] = text) ∧
    (∀ (text : List Char) (ds : List Detection),
      ds.Pairwise (fun a b => a.stop ≤ b.start) →
      (∀ d ∈ ds, d.start < d.stop) →
      (∀ d ∈ ds, d.stop ≤ text.length) →
      maskText text ds = specMaskOutput text ds 0) ∧
    (∀ (entity_type m : String) (score : Rat),
      maskText "A12345B".data [⟨entity_type, "12345".data, 1, 6, score, m⟩] =
        'A' :: '[' :: ((entityLabel entity_type).data ++ (']' :: ['B']))) ∧
    (∀ entity_type : String, ENTITY_LABELS.lookup entity_type = none →
      entityLabel entity_type = "機密情報") := by
  refine ⟨?_, ?_, ?_, ?_⟩
  · intro text
    simp [maskText]
  · intro text ds h1 h2 h3
    exact maskText_spec_eq text ds h1 h2 h3
  · intro entity_type m score
    simp [maskText, removeOverlapping, removeOverlappingAux, acceptOk,
      sortedBy, insertLe, maskOne]
  · intro entity_type h
    simp [entityLabel, h]

/-- Witness for C5: the identity on empty candidates, the spec's
multi-span instance (two disjoint spans on `X Y Z` masked right-to-left
to `[URL] Y [URL]`), the concrete single-span splice `A[URL]B`, and the
default label for an unknown type. -/
theorem mask_splice_and_default_witness :
    maskText "x".data [] = "x".data ∧
    maskText "X Y Z".data
        [⟨"URL", "X".data, 0, 1, mkRat 5 10, "regex"⟩,
         ⟨"URL", "Z".data, 4, 5, mkRat 5 10, "regex"⟩] =
      "[URL] Y [URL]".data ∧
    maskText "A12345B".data [⟨"URL", "12345".data, 1, 6, mkRat 5 10, "regex"⟩] =
      'A' :: '[' :: ((entityLabel "URL").data ++ (']' :: ['B'])) ∧
    entityLabel "ZZZ" = "機密情報" := by
  refine ⟨mask_splice_and_default.1 "x".data, ?_,
    mask_splice_and_default.2.2.1 "URL" "regex" (mkRat 5 10),
    mask_splice_and_default.2.2.2 "ZZZ" (by decide)⟩
  have h := mask_splice_and_default.2.1 "X Y Z".data
    [⟨"URL", "X".data, 0, 1, mkRat 5 10, "regex"⟩,
     ⟨"URL", "Z".data, 4, 5, mkRat 5 10, "regex"⟩]
    (by decide) (by decide) (by decide)
  rw [h]
  decide

/-- The pattern occurs in the text at index `i`. -/
def occursAt (pat text : List Char) (i : Nat) : Prop :=
  pat.isPrefixOf (text.drop i) = true

lemma findSubAux_some (pat : List Char) :
    ∀ (t : List Char) (i j : Nat), findSubAux pat t i = some j →
      ∃ k, j = i + k ∧ pat.isPrefixOf (t.drop k) = true ∧
        ∀ m, m < k → pat.isPrefixOf (t.drop m) = false := by
  intro t
  induction t with
  | nil =>
    intro i j h
    rw [findSubAux] at h
    by_cases hp : pat = []
    · rw [if_pos hp, Option.some_inj] at h
      refine ⟨0, by omega, by simp [hp], by omega⟩
    · rw [if_neg hp] at h
      exact absurd h (by simp)
  | cons c rest ih =>
    intro i j h
    rw [findSubAux] at h
    by_cases hp : pat.isPrefixOf (c :: rest) = true
    · rw [if_pos hp, Option.some_inj] at h
      refine ⟨0, by omega, by simpa using hp, by omega⟩
    · rw [if_neg hp] at h
      obtain ⟨k, hk, hpre, hmin⟩ := ih (i + 1) j h
      refine ⟨k + 1, by omega, by simpa using hpre, ?_⟩
      intro m hm
      match m with
      | 0 => simpa using Bool.eq_false_iff.mpr hp
      | m' + 1 => simpa using hmin m' (by omega)

lemma findSub_some (text pat : List Char) (j : Nat) (h : findSub text pat = some j) :
    occursAt pat text j ∧ ∀ m, m < j → ¬ occursAt pat text m := by
  obtain ⟨k, hk, hpre, hmin⟩ := findSubAux_some pat text 0 j h
  have hkj : j = k := by omega
  subst hkj
  refine ⟨hpre, fun m hm hocc => ?_⟩
  have hocc2 : pat.isPrefixOf (text.drop m) = true := hocc
  rw [hmin m hm] at hocc2
  exact Bool.false_ne_true hocc2

/-- C8: the context detector adapter never surfaces an error: when the
external capability is unavailable or the chat call fails, the result is
the empty list. Every detection it does return comes from a returned
(type, value) pair with non-empty value, carries that value as its text,
has `end = start + len(value)`, and is located at the first occurrence of
the value in the original text. A pair whose value does not occur in the
text yields no detection. -/
theorem llm_adapter_first_occurrence :
    (∀ (response : Option (List (String × String))) (text : List Char),
      llmDetect false response text = []) ∧
    (∀ text : List Char, llmDetect true none text = []) ∧
    (∀ (items : List (String × String)) (text : List Char) (d : LLMDetection),
      d ∈ llmDetect true (some items) text →
        ∃ ty v, (ty, v) ∈ items ∧ v ≠ "" ∧ d.text = v.data ∧
          d.stop = d.start + v.data.length ∧ occursAt v.data text d.start ∧
          ∀ m, m < d.start → ¬ occursAt v.data text m) ∧
    (∀ (items : List (String × String)) (text : List Char) (v : String),
      (∀ i, ¬ occursAt v.data text i) →
        ∀ d ∈ llmDetect true (some items) text, d.text ≠ v.data) := by
  have key : ∀ (items : List (String × String)) (text : List Char) (d : LLMDetection),
      d ∈ llmDetect true (some items) text →
        ∃ ty v, (ty, v) ∈ items ∧ v ≠ "" ∧ d.text = v.data ∧
          d.stop = d.start + v.data.length ∧ occursAt v.data text d.start ∧
          ∀ m, m < d.start → ¬ occursAt v.data text m := by
    intro items text d hd
    rw [llmDetect] at hd
    simp only [Bool.not_true, Bool.false_eq_true, if_false, List.mem_filterMap] at hd
    obtain ⟨item, hitem, hf⟩ := hd
    by_cases hv : item.2 = ""
    · rw [if_pos hv] at hf
      exact absurd hf (by simp)
    · rw [if_neg hv] at hf
      cases hfind : findSub text item.2.data with
      | none => rw [hfind] at hf; exact absurd hf (by simp)
      | some s =>
        rw [hfind, Option.some_inj] at hf
        obtain ⟨hocc, hmin⟩ := findSub_some text item.2.data s hfind
        refine ⟨item.1, item.2, by simpa using hitem, hv, ?_, ?_, ?_, ?_⟩
        · rw [← hf]
        · rw [← hf]
        · rw [← hf]; exact hocc
        · rw [← hf]; exact hmin
  refine ⟨fun response text => rfl, fun text => rfl, key, ?_⟩
  intro items text v hnone d hd habs
  obtain ⟨ty, v', _, _, htext, _, hocc, _⟩ := key items text d hd
  have hv : v'.data = v.data := by rw [← htext, habs]
  exact hnone d.start (by rw [← hv]; exact hocc)

/-- Witness for C8: on text `AB` with returned pair (個人名, B), the
adapter's single detection is anchored at the first occurrence of `B`. -/
theorem llm_adapter_first_occurrence_witness :
    ∃ ty v, (ty, v) ∈ [("個人名", "B")] ∧ v ≠ "" ∧
      (⟨"PERSON", "B".data, 1, 2, mkRat 75 100⟩ : LLMDetection).text = v.data ∧
      (⟨"PERSON", "B".data, 1, 2, mkRat 75 100⟩ : LLMDetection).stop =
        (⟨"PERSON", "B".data, 1, 2, mkRat 75 100⟩ : LLMDetection).start + v.data.length ∧
      occursAt v.data "AB".data
        (⟨"PERSON", "B".data, 1, 2, mkRat 75 100⟩ : LLMDetection).start ∧
      ∀ m, m < (⟨"PERSON", "B".data, 1, 2, mkRat 75 100⟩ : LLMDetection).start →
        ¬ occursAt v.data "AB".data m :=
  llm_adapter_first_occurrence.2.2.1 [("個人名", "B")] "AB".data
    ⟨"PERSON", "B".data, 1, 2, mkRat 75 100⟩ (by decide)

/-- Two dictionary entries that agree on the matched literal and on the
category, and may differ in the display label. -/
def SameTermAndCategory (a b : DictionaryEntry) : Prop :=
  a.value = b.value ∧ a.category = b.category

lemma dictEntryDetections_map_label_eq (text : List Char) (a b : DictionaryEntry)
    (h : SameTermAndCategory a b) :
    (dictEntryDetections text a).map dictToDetection =
      (dictEntryDetections text b).map dictToDetection := by
  obtain ⟨hv, hc⟩ := h
  simp [dictEntryDetections, dictToDetection, hv, hc, List.map_map, Function.comp]

lemma stage12_label_eq (p : List RecognizerResult) (text : List Char)
    (e1 e2 : List DictionaryEntry) (h : List.Forall₂ SameTermAndCategory e1 e2) :
    stage12 p e1 text = stage12 p e2 text := by
  unfold stage12
  congr 1
  induction h with
  | nil => rfl
  | cons hab htail ih =>
    have ih2 := ih
    simp only [dictDetect] at ih2
    simp only [dictDetect, List.flatMap_cons, List.map_append]
    rw [dictEntryDetections_map_label_eq text _ _ hab, ih2]

/-- C10: the per-term display label of a dictionary entry never influences
the masked output of `detect`: two term lists that agree on values and
categories (labels arbitrary) produce identical masked text on every
input, because masking derives labels solely from `ENTITY_LABELS` keyed by
the category-derived entity type. -/
theorem dict_label_noninterference (engine : ShieldAIEngine)
    (p : List RecognizerResult) (la : Bool)
    (lr : Option (List (String × String))) (text : List Char)
    (e1 e2 : List DictionaryEntry)
    (h : List.Forall₂ SameTermAndCategory e1 e2) :
    (detect engine p e1 la lr text).masked_text =
      (detect engine p e2 la lr text).masked_text := by
  unfold detect
  rw [stage12_label_eq p text e1 e2 h]

/-- Witness for C10: two one-term dictionaries differing only in the label
field mask the text identically. -/
theorem dict_label_noninterference_witness :
    (detect (mkEngine false 50) [] [⟨"Acme", "X", "companies"⟩] false none
        "Acme".data).masked_text =
      (detect (mkEngine false 50) [] [⟨"Acme", "Y", "companies"⟩] false none
        "Acme".data).masked_text :=
  dict_label_noninterference (mkEngine false 50) [] false none "Acme".data
    [⟨"Acme", "X", "companies"⟩] [⟨"Acme", "Y", "companies"⟩]
    (List.Forall₂.cons ⟨rfl, rfl⟩ List.Forall₂.nil)
